import Mathlib

/-!
Verification of the producer/consumer handoff-queue pattern of the
CPP-Advanced repository (files `Concurrency/10_Thread_ConditionVariable_example.cpp`,
`Concurrency/9_Thread_condition_variable.cpp`, `Concurrency/5_Thread_mutex.cpp`,
`Thread/8_Thread_promise.cpp`).

The concurrent programs are shallowly embedded as interleaved transition
systems: each critical section protected by the mutex (a single `push_back`,
a single `pop_front`, the flag write, the terminal check) is one atomic step,
and an execution is a schedule (`List Bool`) saying which thread takes each
step.  All definitions are executable and translated from the C++ sources.
-/

namespace CV10

/-- Shared state of `10_Thread_ConditionVariable_example.cpp`:
`queue` is `g_Data` (a `std::list<int>` used FIFO: `push_back` / `pop_front`),
`flag` is `g_DownloadFinished`, `pushed` is the loop index of `Download`,
`consumed` records the values popped by `ProcessData` in order, and `done`
records that `ProcessData` has taken the `break` at the terminal check. -/
structure SysState where
  queue : List Int
  flag : Bool
  pushed : Nat
  consumed : List Int
  done : Bool
deriving Repr, DecidableEq

/-- Initial shared state: empty `g_Data`, `g_DownloadFinished = false`,
producer at iteration 0, nothing consumed, consumer loop running. -/
def initState : SysState := ⟨[], false, 0, [], false⟩

/-- One atomic step of `Download` pushing the items of `items` in order:
while the loop index is below `items.length` it appends the next item at the
tail of `g_Data` (`g_Data.push_back(i)`); after the loop it sets
`g_DownloadFinished = true`; once the flag is set it does nothing more. -/
def producerStep (items : List Int) (s : SysState) : SysState :=
  if h : s.pushed < items.length then
    { s with queue := s.queue ++ [items.get ⟨s.pushed, h⟩], pushed := s.pushed + 1 }
  else if s.flag then s
  else { s with flag := true }

/-- One atomic step of `ProcessData`: if the loop has already exited it does
nothing; otherwise, if `g_Data` is non-empty it removes the front value
(`g_Data.front(); g_Data.pop_front()`) and records it as processed; if
`g_Data` is empty and `g_DownloadFinished` is set it takes the `break`
(state `DONE`); if `g_Data` is empty and the flag is clear it keeps waiting
on the condition variable (no state change). -/
def consumerStep (s : SysState) : SysState :=
  if s.done then s
  else
    match s.queue with
    | v :: rest => { s with queue := rest, consumed := s.consumed ++ [v] }
    | [] => if s.flag then { s with done := true } else s

/-- One interleaving step: `true` schedules the producer, `false` the
consumer. -/
def step (items : List Int) (s : SysState) (who : Bool) : SysState :=
  if who then producerStep items s else consumerStep s

/-- Run the system from a given state under a schedule. -/
def runFrom (items : List Int) (s : SysState) (sched : List Bool) : SysState :=
  sched.foldl (step items) s

/-- Run the system from the initial state under a schedule. -/
def run (items : List Int) (sched : List Bool) : SysState :=
  runFrom items initState sched

/-- Reachability invariant of the shared state tying together the producer
and consumer of `10_Thread_ConditionVariable_example.cpp`. -/
def Inv (items : List Int) (s : SysState) : Prop :=
  s.consumed ++ s.queue = items.take s.pushed ∧
  s.pushed ≤ items.length ∧
  (s.flag = true → s.pushed = items.length) ∧
  (s.done = true → s.flag = true ∧ s.queue = [])

theorem inv_init (items : List Int) : Inv items initState := by
  refine ⟨rfl, Nat.zero_le _, ?_, ?_⟩ <;> intro h <;> simp [initState] at h

theorem take_succ_get (items : List Int) (n : Nat) (h : n < items.length) :
    items.take (n + 1) = items.take n ++ [items.get ⟨n, h⟩] := by
  rw [List.take_succ, List.getElem?_eq_getElem h]
  rfl

theorem inv_step (items : List Int) (s : SysState) (b : Bool)
    (h : Inv items s) : Inv items (step items s b) := by
  obtain ⟨h1, h2, h3, h4⟩ := h
  cases b with
  | true =>
    by_cases hlt : s.pushed < items.length
    · simp only [step, producerStep, dif_pos hlt, if_true]
      refine ⟨?_, hlt, ?_, ?_⟩
      · rw [← List.append_assoc, h1, take_succ_get items s.pushed hlt]
      · intro hf
        exact absurd (h3 hf) (Nat.ne_of_lt hlt)
      · intro hd
        obtain ⟨hf, _⟩ := h4 hd
        exact absurd (h3 hf) (Nat.ne_of_lt hlt)
    · have hp : s.pushed = items.length := Nat.le_antisymm h2 (Nat.le_of_not_lt hlt)
      by_cases hf : s.flag
      · simp only [step, producerStep, dif_neg hlt, hf, if_true]
        exact ⟨h1, h2, h3, h4⟩
      · simp only [step, producerStep, dif_neg hlt, hf, if_true, Bool.false_eq_true,
          if_false]
        refine ⟨h1, h2, fun _ => hp, ?_⟩
        intro hd
        obtain ⟨hfl, _⟩ := h4 hd
        simp [hfl] at hf
  | false =>
    by_cases hd : s.done
    · simp only [step, consumerStep, hd, if_true, Bool.false_eq_true, if_false]
      exact ⟨h1, h2, h3, h4⟩
    · cases hq : s.queue with
      | cons v rest =>
        simp only [step, consumerStep, hd, hq, Bool.false_eq_true, if_false]
        refine ⟨?_, h2, h3, ?_⟩
        · rw [List.append_assoc, List.singleton_append, ← hq, h1]
        · intro hdd
          simp at hdd
      | nil =>
        by_cases hf : s.flag
        · simp only [step, consumerStep, hd, hq, hf, if_true, Bool.false_eq_true, if_false]
          exact ⟨by rw [← h1, hq], h2, fun _ => h3 hf, fun _ => ⟨rfl, rfl⟩⟩
        · simp only [step, consumerStep, hd, hq, hf, Bool.false_eq_true, if_false]
          exact ⟨h1, h2, h3, h4⟩

theorem inv_runFrom (items : List Int) (s : SysState) (sched : List Bool)
    (h : Inv items s) : Inv items (runFrom items s sched) := by
  induction sched generalizing s with
  | nil => exact h
  | cons b rest ih => exact ih _ (inv_step items s b h)

theorem inv_run (items : List Int) (sched : List Bool) :
    Inv items (run items sched) :=
  inv_runFrom items initState sched (inv_init items)

theorem take_of_append_eq {l t m : List Int} (h : l ++ t = m) :
    m.take l.length = l := by
  subst h
  exact List.take_left l t

/-- C1: FIFO delivery.  For every push sequence `items` and every
interleaving `sched` of the producer `Download` and the consumer
`ProcessData`: the consumed values followed by the values still queued are
exactly the pushed prefix (no loss, no duplication); the consumed sequence
equals the initial segment of `items` of the same length, so the i-th popped
item is the i-th pushed item (no reordering); and when the consumer has
finished, the consumed sequence equals the whole push sequence. -/
theorem claim1_fifo_order (items : List Int) (sched : List Bool) :
    (run items sched).consumed ++ (run items sched).queue
        = items.take (run items sched).pushed ∧
    items.take (run items sched).consumed.length = (run items sched).consumed ∧
    ((run items sched).done = true → (run items sched).consumed = items) := by
  obtain ⟨h1, h2, h3, h4⟩ := inv_run items sched
  have hfull : (run items sched).consumed
      ++ ((run items sched).queue ++ items.drop (run items sched).pushed) = items := by
    rw [← List.append_assoc, h1, List.take_append_drop]
  refine ⟨h1, take_of_append_eq hfull, ?_⟩
  intro hd
  obtain ⟨hf, hq⟩ := h4 hd
  have hp := h3 hf
  have h1' := h1
  rw [hq, List.append_nil, hp, List.take_length] at h1'
  exact h1'

/-- Witness for C1 at the concrete execution where `Download` pushes `7`
then `8`, sets the flag, and `ProcessData` then drains the queue and exits. -/
theorem claim1_fifo_order_witness :
    (run [7, 8] [true, true, true, false, false, false]).done = true ∧
    (run [7, 8] [true, true, true, false, false, false]).consumed = [7, 8] :=
  ⟨by decide,
   (claim1_fifo_order [7, 8] [true, true, true, false, false, false]).2.2 (by decide)⟩

/-- Items pushed by `Download` in `10_Thread_ConditionVariable_example.cpp`:
the loop pushes `i` for `i = 0 .. SIZE - 1` with `SIZE = 10`. -/
def items10 : List Int := (List.range 10).map Int.ofNat

/-- C10: the shutdown flag `g_DownloadFinished` is set only after all
`SIZE = 10` items (the values `0` through `9`) have been pushed: in every
reachable state, `flag = true` implies the producer loop has completed all
ten pushes and every produced item is in `consumed ++ queue`; hence the
consumer's terminal condition implies every item was delivered. -/
theorem claim10_flag_after_all_pushed (sched : List Bool) :
    ((run items10 sched).flag = true →
      (run items10 sched).pushed = 10 ∧
      (run items10 sched).consumed ++ (run items10 sched).queue = items10) ∧
    ((run items10 sched).done = true → (run items10 sched).consumed = items10) := by
  obtain ⟨h1, h2, h3, h4⟩ := inv_run items10 sched
  have hlen : items10.length = 10 := by decide
  constructor
  · intro hf
    have hp : (run items10 sched).pushed = 10 := by rw [h3 hf, hlen]
    refine ⟨hp, ?_⟩
    rw [h1, hp, ← hlen, List.take_length]
  · intro hd
    obtain ⟨hf, hq⟩ := h4 hd
    have h1' := h1
    rw [hq, List.append_nil, h3 hf, List.take_length] at h1'
    exact h1'

/-- Witness for C10 at the schedule that runs the producer to completion
(ten pushes and the flag write) and then lets the consumer drain. -/
theorem claim10_flag_after_all_pushed_witness :
    (run items10 (List.replicate 11 true)).flag = true ∧
    (run items10 (List.replicate 11 true)).pushed = 10 :=
  ⟨by decide, ((claim10_flag_after_all_pushed (List.replicate 11 true)).1 (by decide)).1⟩

theorem terminal_freeze (items : List Int) (sched2 : List Bool) :
    ∀ s : SysState, s.flag = true → s.queue = [] → s.pushed = items.length →
    (runFrom items s sched2).queue = [] ∧
    (runFrom items s sched2).flag = true ∧
    (runFrom items s sched2).pushed = items.length ∧
    (runFrom items s sched2).consumed = s.consumed ∧
    ((s.done = true ∨ false ∈ sched2) → (runFrom items s sched2).done = true) := by
  induction sched2 with
  | nil =>
    intro s hf hq hp
    refine ⟨hq, hf, hp, rfl, ?_⟩
    rintro (hd | hm)
    · exact hd
    · simp at hm
  | cons b rest ih =>
    intro s hf hq hp
    cases b with
    | true =>
      have hs : step items s true = s := by
        simp [step, producerStep, hp, hf]
      have hrw : runFrom items s (true :: rest) = runFrom items s rest := by
        show runFrom items (step items s true) rest = runFrom items s rest
        rw [hs]
      obtain ⟨c1, c2, c3, c4, c5⟩ := ih s hf hq hp
      rw [hrw]
      refine ⟨c1, c2, c3, c4, ?_⟩
      rintro (hd | hm)
      · exact c5 (Or.inl hd)
      · simp at hm
        exact c5 (Or.inr hm)
    | false =>
      by_cases hd : s.done = true
      · have hs : step items s false = s := by
          simp [step, consumerStep, hd]
        have hrw : runFrom items s (false :: rest) = runFrom items s rest := by
          show runFrom items (step items s false) rest = runFrom items s rest
          rw [hs]
        obtain ⟨c1, c2, c3, c4, c5⟩ := ih s hf hq hp
        rw [hrw]
        exact ⟨c1, c2, c3, c4, fun _ => c5 (Or.inl hd)⟩
      · have hs : step items s false = { s with done := true } := by
          simp [step, consumerStep, hd, hq, hf]
        have hrw : runFrom items s (false :: rest)
            = runFrom items { s with done := true } rest := by
          show runFrom items (step items s false) rest = _
          rw [hs]
        obtain ⟨c1, c2, c3, c4, c5⟩ := ih { s with done := true } hf hq hp
        rw [hrw]
        exact ⟨c1, c2, c3, c4, fun _ => c5 (Or.inl rfl)⟩

/-- C3: once `g_DownloadFinished` is true and `g_Data` is empty, no step of
the producer or the consumer adds or removes any item (the queue stays
empty, the consumed sequence and the push counter never change), and the
consumer's wait loop terminates from that state: any continuation schedule
that gives the consumer at least one step puts it in the terminal `DONE`
state (the `break` at the flag-and-empty check). -/
theorem claim3_shutdown_terminates (items : List Int) (sched sched2 : List Bool)
    (hf : (run items sched).flag = true) (hq : (run items sched).queue = []) :
    (runFrom items (run items sched) sched2).queue = [] ∧
    (runFrom items (run items sched) sched2).consumed = (run items sched).consumed ∧
    (runFrom items (run items sched) sched2).pushed = (run items sched).pushed ∧
    (false ∈ sched2 → (runFrom items (run items sched) sched2).done = true) := by
  obtain ⟨h1, h2, h3, h4⟩ := inv_run items sched
  have hp := h3 hf
  obtain ⟨c1, c2, c3, c4, c5⟩ := terminal_freeze items sched2 (run items sched) hf hq hp
  exact ⟨c1, c4, by rw [c3, hp], fun hm => c5 (Or.inr hm)⟩

/-- Witness for C3: after the producer pushes `1` and sets the flag and the
consumer pops it, the state is terminal; one further consumer step exits. -/
theorem claim3_shutdown_terminates_witness :
    (runFrom [1] (run [1] [true, true, false]) [false]).queue = [] ∧
    (runFrom [1] (run [1] [true, true, false]) [false]).consumed
      = (run [1] [true, true, false]).consumed ∧
    (runFrom [1] (run [1] [true, true, false]) [false]).done = true := by
  obtain ⟨c1, c2, c3, c4⟩ :=
    claim3_shutdown_terminates [1] [true, true, false] [false] (by decide) (by decide)
  exact ⟨c1, c2, c4 (by decide)⟩

/-- Operation `close()` of the handoff queue, as realised by `Download`
after its loop: it sets `g_DownloadFinished = true` under the lock and
changes nothing else. -/
def close (s : SysState) : SysState := { s with flag := true }

/-- C6: `close()` is idempotent: applying it `n + 1` times (any number at
least one) yields exactly the same state as applying it once, so all
subsequent push/pop operations behave identically; and `close` only sets
the monotonic shutdown flag to `true`, leaving the queue, the push counter,
the consumed sequence and the consumer status unchanged. -/
theorem claim6_close_idempotent (s : SysState) (n : Nat) :
    close^[n + 1] s = close s ∧
    close (close s) = close s ∧
    (close s).flag = true ∧
    (close s).queue = s.queue ∧
    (close s).pushed = s.pushed ∧
    (close s).consumed = s.consumed ∧
    (close s).done = s.done := by
  have hcc : close (close s) = close s := rfl
  refine ⟨?_, hcc, rfl, rfl, rfl, rfl, rfl⟩
  induction n with
  | zero => rfl
  | succ k ih =>
    rw [Function.iterate_succ_apply']
    rw [ih]
    exact hcc

/-- Wait predicate of the consumer's `g_CV.wait(lock, ...)` call in
`ProcessData` (and of `Consumer` in `9_Thread_condition_variable.cpp`):
proceed only when the queue is non-empty or the shutdown flag is set. -/
def waitPred (queue : List Int) (flag : Bool) : Bool :=
  !queue.isEmpty || flag

/-- One `pop()` of the spec's handoff queue as realised by the body of
`ProcessData`: when the wait predicate fails the call stays blocked
(result `none`); when the queue is non-empty the front item is removed and
returned (`g_Data.front(); g_Data.pop_front()`); when the queue is empty
and `g_DownloadFinished` holds the call returns the "no more items"
outcome. -/
def popResult (queue : List Int) (flag : Bool) : Option (Option Int × List Int) :=
  match queue with
  | v :: rest => some (some v, rest)
  | [] => if flag then some (none, []) else none

/-- C2: `pop()` has exactly two completed outcomes: it returns an item
exactly when the queue is non-empty, and then the item is the head and the
head is removed; it returns "no more items" exactly when the shutdown flag
is true and the queue is empty; in every other state it does not return. -/
theorem claim2_pop_outcomes (queue : List Int) (flag : Bool)
    (r : Option Int × List Int) :
    popResult queue flag = some r ↔
      ((∃ v rest, queue = v :: rest ∧ r = (some v, rest)) ∨
       (flag = true ∧ queue = [] ∧ r = (none, []))) := by
  cases queue with
  | nil =>
    cases flag <;> simp [popResult]
    tauto
  | cons v rest =>
    simp only [popResult, Option.some.injEq]
    constructor
    · intro h
      exact Or.inl ⟨v, rest, rfl, h.symm⟩
    · rintro (⟨v', rest', hq, hr⟩ | ⟨_, hq, _⟩)
      · injection hq with h1 h2
        subst h1
        subst h2
        exact hr.symm
      · exact absurd hq (List.cons_ne_nil v rest)

/-- Operation `push(item)` of the handoff queue: append at the tail
(`g_Data.push_back`). -/
def push (queue : List Int) (v : Int) : List Int := queue ++ [v]

/-- Repeated `pop()` calls: collect the results of `n` pops starting from
the given queue and flag state (a blocked pop ends the collection). -/
def popMany : Nat → List Int → Bool → List (Option Int)
  | 0, _, _ => []
  | Nat.succ n, queue, flag =>
      match popResult queue flag with
      | some (r, rest) => r :: popMany n rest flag
      | none => []

/-- C4: concrete scenario: after the producer pushes `1, 2, 3, 4, 5` in
order and then closes the queue, six consecutive `pop()` calls by the
consumer return exactly `1, 2, 3, 4, 5`, "no more items", in that order. -/
theorem claim4_scenario_one_to_five :
    popMany 6 ([1, 2, 3, 4, 5].foldl push []) true
      = [some 1, some 2, some 3, some 4, some 5, none] := by decide

/-- C5: no spurious return of `pop()`: when the wait predicate is false
(queue empty, flag clear) the pop stays blocked and a consumer step changes
nothing (the woken thread re-checks the predicate and resumes waiting); a
completed pop implies the predicate held; a pop returning an item implies
the queue was non-empty — and a non-empty queue in any reachable execution
implies at least one push has occurred — while a pop returning "no more
items" implies the flag had been set with the queue empty. -/
theorem claim5_no_spurious_return (queue : List Int) (flag : Bool) (s : SysState)
    (items : List Int) (sched : List Bool) :
    (waitPred queue flag = false → popResult queue flag = none) ∧
    (∀ r, popResult queue flag = some r → waitPred queue flag = true) ∧
    (∀ v rest, popResult queue flag = some (some v, rest) → queue = v :: rest) ∧
    (∀ rest, popResult queue flag = some (none, rest) → flag = true ∧ queue = []) ∧
    (s.queue = [] → s.flag = false → consumerStep s = s) ∧
    ((run items sched).queue ≠ [] → 0 < (run items sched).pushed) := by
  refine ⟨?_, ?_, ?_, ?_, ?_, ?_⟩
  · intro hw
    cases queue with
    | nil =>
      simp [waitPred] at hw
      simp [popResult, hw]
    | cons v rest => simp [waitPred] at hw
  · intro r hr
    cases queue with
    | nil =>
      cases hf : flag with
      | false => rw [hf] at hr; simp [popResult] at hr
      | true => simp [waitPred, hf]
    | cons v rest => simp [waitPred]
  · intro v rest hr
    cases queue with
    | nil =>
      cases hf : flag with
      | false => rw [hf] at hr; simp [popResult] at hr
      | true => rw [hf] at hr; simp [popResult] at hr
    | cons v' rest' =>
      simp [popResult] at hr
      rw [hr.1, hr.2]
  · intro rest hr
    cases queue with
    | nil =>
      cases hf : flag with
      | false => rw [hf] at hr; simp [popResult] at hr
      | true => exact ⟨rfl, rfl⟩
    | cons v' rest' => simp [popResult] at hr
  · intro hq hf
    by_cases hd : s.done = true
    · simp [consumerStep, hd]
    · simp [consumerStep, hd, hq, hf]
  · intro hne
    obtain ⟨h1, h2, h3, h4⟩ := inv_run items sched
    by_contra hz
    have hz0 : (run items sched).pushed = 0 := Nat.eq_zero_of_not_pos hz
    rw [hz0] at h1
    simp only [List.take_zero, List.append_eq_nil] at h1
    exact hne h1.2

/-- Witness for C5: with the queue empty and the flag clear the pop is
blocked and a consumer step is a no-op; and in the run where the producer
has pushed once, the non-empty queue certifies a preceding push. -/
theorem claim5_no_spurious_return_witness :
    popResult [] false = none ∧
    consumerStep initState = initState ∧
    0 < (run [5] [true]).pushed := by
  obtain ⟨c1, c2, c3, c4, c5, c6⟩ :=
    claim5_no_spurious_return [] false initState [5] [true]
  exact ⟨c1 rfl, c5 rfl rfl, c6 (by decide)⟩

end CV10

namespace Mutex5

/-- Shared state of `5_Thread_mutex.cpp`: `data` is the global
`std::list<int> g_Data`, `i1` and `i2` are the loop counters of the two
worker threads `Download` and `Download2`. -/
structure MState where
  data : List Int
  i1 : Nat
  i2 : Nat
deriving Repr, DecidableEq

/-- Loop bound of `5_Thread_mutex.cpp`: `const int SIZE = 100000`. -/
def SIZE : Nat := 100000

/-- One atomic step of the mutex demo: one `lock_guard` critical section in
which the scheduled thread (`true` is `Download`, `false` is `Download2`)
executes `g_Data.push_back(i)` and advances its loop counter; a thread
whose loop has reached `SIZE` does nothing. -/
def mstep (size : Nat) (s : MState) (who : Bool) : MState :=
  if who then
    if s.i1 < size then
      { s with data := s.data ++ [Int.ofNat s.i1], i1 := s.i1 + 1 }
    else s
  else
    if s.i2 < size then
      { s with data := s.data ++ [Int.ofNat s.i2], i2 := s.i2 + 1 }
    else s

/-- Run the two downloader threads from a state under an interleaving. -/
def mrunFrom (size : Nat) (s : MState) (sched : List Bool) : MState :=
  sched.foldl (mstep size) s

/-- Run the two downloader threads from the initial state (`g_Data` empty,
both loops at 0) under an interleaving. -/
def mrun (size : Nat) (sched : List Bool) : MState :=
  mrunFrom size ⟨[], 0, 0⟩ sched

theorem mstep_len (size : Nat) (s : MState) (b : Bool)
    (h : s.data.length = s.i1 + s.i2) :
    (mstep size s b).data.length = (mstep size s b).i1 + (mstep size s b).i2 := by
  cases b <;> simp only [mstep, if_true, Bool.false_eq_true, if_false] <;>
    split <;> simp [h] <;> omega

theorem mrunFrom_len (size : Nat) (sched : List Bool) :
    ∀ s : MState, s.data.length = s.i1 + s.i2 →
      (mrunFrom size s sched).data.length
        = (mrunFrom size s sched).i1 + (mrunFrom size s sched).i2 := by
  induction sched with
  | nil => intro s h; exact h
  | cons b rest ih =>
    intro s h
    exact ih (mstep size s b) (mstep_len size s b h)

/-- C8: no append is lost in the mutex demo: for every interleaving of the
two downloader threads, the length of `g_Data` equals the sum of the two
loop counters; in particular, once both threads have completed their
`SIZE = 100000` iterations, `g_Data` holds exactly `2 * SIZE = 200000`
elements. -/
theorem claim8_mutex_no_lost_append (sched : List Bool) :
    (mrun SIZE sched).data.length = (mrun SIZE sched).i1 + (mrun SIZE sched).i2 ∧
    ((mrun SIZE sched).i1 = SIZE → (mrun SIZE sched).i2 = SIZE →
      (mrun SIZE sched).data.length = 200000) := by
  have h : (mrun SIZE sched).data.length = (mrun SIZE sched).i1 + (mrun SIZE sched).i2 :=
    mrunFrom_len SIZE sched ⟨[], 0, 0⟩ rfl
  refine ⟨h, ?_⟩
  intro h1 h2
  rw [h]
  show (mrun SIZE sched).i1 + (mrun SIZE sched).i2 = 200000
  rw [h1, h2]
  decide

theorem mrunFrom_rep_true (size n : Nat) (s : MState) (h : s.i1 ≤ size) :
    (mrunFrom size s (List.replicate n true)).i1 = min (s.i1 + n) size ∧
    (mrunFrom size s (List.replicate n true)).i2 = s.i2 := by
  induction n generalizing s with
  | zero =>
    constructor
    · show s.i1 = min (s.i1 + 0) size
      omega
    · rfl
  | succ k ih =>
    have hrw : mrunFrom size s (List.replicate (k + 1) true)
        = mrunFrom size (mstep size s true) (List.replicate k true) := rfl
    by_cases hlt : s.i1 < size
    · have hs : mstep size s true
          = { s with data := s.data ++ [Int.ofNat s.i1], i1 := s.i1 + 1 } := by
        simp [mstep, hlt]
      rw [hrw, hs]
      obtain ⟨c1, c2⟩ := ih { s with data := s.data ++ [Int.ofNat s.i1], i1 := s.i1 + 1 }
        (by simpa using hlt)
      refine ⟨?_, c2⟩
      rw [c1]
      show min (s.i1 + 1 + k) size = min (s.i1 + (k + 1)) size
      omega
    · have hs : mstep size s true = s := by
        simp [mstep, hlt]
      rw [hrw, hs]
      obtain ⟨c1, c2⟩ := ih s h
      refine ⟨?_, c2⟩
      rw [c1]
      omega

theorem mrunFrom_rep_false (size n : Nat) (s : MState) (h : s.i2 ≤ size) :
    (mrunFrom size s (List.replicate n false)).i2 = min (s.i2 + n) size ∧
    (mrunFrom size s (List.replicate n false)).i1 = s.i1 := by
  induction n generalizing s with
  | zero =>
    constructor
    · show s.i2 = min (s.i2 + 0) size
      omega
    · rfl
  | succ k ih =>
    have hrw : mrunFrom size s (List.replicate (k + 1) false)
        = mrunFrom size (mstep size s false) (List.replicate k false) := rfl
    by_cases hlt : s.i2 < size
    · have hs : mstep size s false
          = { s with data := s.data ++ [Int.ofNat s.i2], i2 := s.i2 + 1 } := by
        simp [mstep, hlt]
      rw [hrw, hs]
      obtain ⟨c1, c2⟩ := ih { s with data := s.data ++ [Int.ofNat s.i2], i2 := s.i2 + 1 }
        (by simpa using hlt)
      refine ⟨?_, c2⟩
      rw [c1]
      show min (s.i2 + 1 + k) size = min (s.i2 + (k + 1)) size
      omega
    · have hs : mstep size s false = s := by
        simp [mstep, hlt]
      rw [hrw, hs]
      obtain ⟨c1, c2⟩ := ih s h
      refine ⟨?_, c2⟩
      rw [c1]
      omega

/-- Schedule that runs `Download` to completion and then `Download2`. -/
def seqSched : List Bool :=
  List.replicate SIZE true ++ List.replicate SIZE false

theorem mrunFrom_append (size : Nat) (s : MState) (l₁ l₂ : List Bool) :
    mrunFrom size s (l₁ ++ l₂) = mrunFrom size (mrunFrom size s l₁) l₂ := by
  simp [mrunFrom, List.foldl_append]

theorem seqSched_complete :
    (mrun SIZE seqSched).i1 = SIZE ∧ (mrun SIZE seqSched).i2 = SIZE := by
  have hsplit : mrun SIZE seqSched
      = mrunFrom SIZE (mrunFrom SIZE ⟨[], 0, 0⟩ (List.replicate SIZE true))
          (List.replicate SIZE false) := by
    unfold mrun seqSched
    exact mrunFrom_append SIZE ⟨[], 0, 0⟩ _ _
  obtain ⟨t1, t2⟩ := mrunFrom_rep_true SIZE SIZE ⟨[], 0, 0⟩ (Nat.zero_le _)
  have ht1 : (mrunFrom SIZE ⟨[], 0, 0⟩ (List.replicate SIZE true)).i1 = SIZE := by
    rw [t1]
    omega
  have ht2 : (mrunFrom SIZE ⟨[], 0, 0⟩ (List.replicate SIZE true)).i2 = 0 := t2
  obtain ⟨f1, f2⟩ := mrunFrom_rep_false SIZE SIZE
    (mrunFrom SIZE ⟨[], 0, 0⟩ (List.replicate SIZE true))
    (by rw [ht2]; exact Nat.zero_le _)
  constructor
  · rw [hsplit, f2, ht1]
  · rw [hsplit, f1, ht2]
    omega

/-- Witness for C8 at the sequential schedule: both threads complete, and
`g_Data` ends with exactly `200000` elements. -/
theorem claim8_mutex_no_lost_append_witness :
    (mrun SIZE seqSched).data.length = 200000 := by
  obtain ⟨hc1, hc2⟩ := seqSched_complete
  exact (claim8_mutex_no_lost_append seqSched).2 hc1 hc2

end Mutex5

namespace Promise8

/-- Two's-complement wraparound of a 32-bit signed `int` value: reduce into
the interval from `-2 ^ 31` to `2 ^ 31 - 1`.  Signed overflow is undefined
behaviour in C++; this models the wraparound of the common two's-complement
implementations. -/
def wrap32 (x : Int) : Int := (x + 2147483648) % 4294967296 - 2147483648

/-- Compute loop of `Operation` in `8_Thread_promise.cpp`: starting from
`int sum{}` (zero), `for (int i = 0; i < count; ++i) sum += i;` — the
accumulator `sum` is a 32-bit signed `int`, so each addition wraps; for a
non-positive `count` the loop body never runs and the sum stays `0`. -/
def operationSum (count : Int) : Int :=
  (List.range count.toNat).foldl (fun sum i => wrap32 (sum + Int.ofNat i)) 0

theorem operationSum_succ (k : Nat) :
    operationSum ((k : Int) + 1) = wrap32 (operationSum (k : Int) + (k : Int)) := by
  have h1 : ((k : Int) + 1).toNat = k + 1 := by omega
  have h2 : ((k : Int)).toNat = k := by omega
  unfold operationSum
  rw [h1, h2, List.range_succ, List.foldl_append]
  rfl

theorem operationSum_double (n : Nat) (h : n ≤ 65536) :
    2 * operationSum (n : Int) = (n : Int) * ((n : Int) - 1) ∧
    0 ≤ operationSum (n : Int) := by
  induction n with
  | zero =>
    constructor
    · decide
    · decide
  | succ k ih =>
    obtain ⟨ih1, ih2⟩ := ih (Nat.le_of_succ_le h)
    have hcast : ((k + 1 : Nat) : Int) = (k : Int) + 1 := by push_cast; ring
    rw [hcast, operationSum_succ]
    have hk : (k : Int) ≤ 65535 := by
      have hk' : k ≤ 65535 := by omega
      exact_mod_cast hk'
    have hknn : (0 : Int) ≤ (k : Int) := Int.natCast_nonneg k
    have h2 : 2 * (operationSum (k : Int) + (k : Int)) = (k : Int) * ((k : Int) + 1) := by
      rw [Int.mul_add, ih1]
      ring
    have hle : (k : Int) * ((k : Int) + 1) ≤ 65535 * 65536 :=
      mul_le_mul hk (by linarith) (by linarith) (by norm_num)
    have hub : operationSum (k : Int) + (k : Int) ≤ 2147450880 := by linarith
    have hlb : 0 ≤ operationSum (k : Int) + (k : Int) := by linarith
    have hwrap : wrap32 (operationSum (k : Int) + (k : Int))
        = operationSum (k : Int) + (k : Int) := by
      unfold wrap32
      omega
    rw [hwrap]
    constructor
    · rw [h2]
      ring
    · exact hlb

/-- C9 counterexample: the claim fails as stated on the code at the
concrete input `count = 65537`: the 32-bit accumulator of `Operation`
overflows (the exact sum `2147516416` exceeds `2 ^ 31 - 1`), the program's
sum wraps to `-2147450880`, and the claimed value `count * (count - 1) / 2
= 2147516416` is not returned. -/
theorem claim9_operation_sum_counterexample :
    operationSum 65537 = -2147450880 ∧
    ¬ operationSum 65537 = 65537 * (65537 - 1) / 2 := by
  have hsucc := operationSum_succ 65536
  have hc1 : ((65536 : Nat) : Int) = 65536 := by norm_num
  rw [hc1] at hsucc
  norm_num at hsucc
  obtain ⟨hg, -⟩ := operationSum_double 65536 (le_refl _)
  rw [hc1] at hg
  norm_num at hg
  have h0 : operationSum 65536 = 2147450880 := by omega
  rw [h0] at hsucc
  have hval : wrap32 (2147450880 + 65536) = -2147450880 := by decide
  rw [hval] at hsucc
  refine ⟨hsucc, ?_⟩
  rw [hsucc]
  decide

/-- C9 (amended): `Operation` computes the sum `0 + 1 + ... + (count - 1)`
in its 32-bit `int` accumulator for the count it receives through the
future; the result equals `count * (count - 1) / 2` for every non-negative
count up to `65536`, the whole range of counts for which the accumulator
never overflows (for larger counts the 32-bit sum wraps); in particular,
for the value `10` set by `main` in the promise, the result retrieved by
`result.get()` is `45`. -/
theorem claim9_operation_sum (count : Int) (h0 : 0 ≤ count) (h1 : count ≤ 65536) :
    operationSum count = count * (count - 1) / 2 ∧ operationSum 10 = 45 := by
  constructor
  · obtain ⟨n, rfl⟩ := Int.eq_ofNat_of_zero_le h0
    have hn : n ≤ 65536 := by exact_mod_cast h1
    obtain ⟨hg, -⟩ := operationSum_double n hn
    rw [← hg, Int.mul_ediv_cancel_left _ (by norm_num)]
  · decide

/-- Witness for C9 at `count = 10`, the value `main` sets in the promise. -/
theorem claim9_operation_sum_witness :
    operationSum 10 = 10 * (10 - 1) / 2 ∧ operationSum 10 = 45 :=
  claim9_operation_sum 10 (by decide) (by decide)

/-- Modelled from the spec: the one-shot value/error channel
(`std::promise` / `std::future`) is standard-library code, not part of this
repository; the spec describes it as a tagged result cell with the three
states Empty, Value and Error, completed at most once.  This is the cell
state. -/
inductive CellState where
  | empty
  | value (v : Int)
  | error (e : String)
deriving Repr, DecidableEq

/-- Modelled from the spec: a one-shot channel is the result cell together
with whether the consuming side has already retrieved it (a retrieved
future is no longer usable: "usable exactly once per value"). -/
structure Channel where
  cell : CellState
  retrieved : Bool
deriving Repr, DecidableEq

/-- Fresh channel: empty cell, nothing retrieved. -/
def newChannel : Channel := ⟨CellState.empty, false⟩

/-- Modelled from the spec: `set_exception` on the producing side completes
the cell with an error; completing an already-completed cell is a usage
error (`none`): the complete transition occurs at most once. -/
def setError (e : String) (c : Channel) : Option Channel :=
  match c.cell with
  | CellState.empty => some { c with cell := CellState.error e }
  | _ => none

/-- Modelled from the spec: `set_value` on the producing side completes the
cell with a value; completing an already-completed cell is a usage error. -/
def setValue (v : Int) (c : Channel) : Option Channel :=
  match c.cell with
  | CellState.empty => some { c with cell := CellState.value v }
  | _ => none

/-- Outcome of one retrieval attempt on the consuming side. -/
inductive GetOutcome where
  | blocked
  | invalid
  | gotValue (v : Int)
  | gotError (e : String)
deriving Repr, DecidableEq

/-- Modelled from the spec: `get()` on the consuming side: not usable after
a retrieval has consumed the channel; suspends while the cell is empty;
otherwise it returns the stored value, or re-raises the stored error, and
marks the channel consumed. -/
def futureGet (c : Channel) : GetOutcome × Channel :=
  if c.retrieved then (GetOutcome.invalid, c)
  else
    match c.cell with
    | CellState.empty => (GetOutcome.blocked, c)
    | CellState.value v => (GetOutcome.gotValue v, { c with retrieved := true })
    | CellState.error e => (GetOutcome.gotError e, { c with retrieved := true })

/-- C7: for the one-shot value/error channel: an error set by the producing
side is observed by the consuming side at its next retrieval (the retrieval
re-raises the error); the completion transition is exclusive (setting a
value after the error is a usage error); and retrieval is usable exactly
once — after any successful retrieval (of a value or an error), a second
`get` on the same channel is not possible. -/
theorem claim7_one_shot_error (e : String) (c c' : Channel)
    (hc : c.retrieved = false) (hs : setError e c = some c') :
    (futureGet c').1 = GetOutcome.gotError e ∧
    (futureGet (futureGet c').2).1 = GetOutcome.invalid ∧
    (∀ v, setValue v c' = none) ∧
    (∀ d : Channel, ∀ v, (futureGet d).1 = GetOutcome.gotValue v →
      (futureGet (futureGet d).2).1 = GetOutcome.invalid) := by
  have hcell : c.cell = CellState.empty ∧ c' = { c with cell := CellState.error e } := by
    cases hcc : c.cell with
    | empty =>
      rw [setError, hcc] at hs
      injection hs with h
      exact ⟨rfl, h.symm⟩
    | value v => rw [setError, hcc] at hs; cases hs
    | error e' => rw [setError, hcc] at hs; cases hs
  obtain ⟨hce, rfl⟩ := hcell
  refine ⟨?_, ?_, ?_, ?_⟩
  · simp [futureGet, hc]
  · simp [futureGet, hc]
  · intro v
    simp [setValue]
  · intro d v hv
    by_cases hr : d.retrieved = true
    · simp [futureGet, hr] at hv
    · simp only [Bool.not_eq_true] at hr
      cases hdc : d.cell with
      | empty => simp [futureGet, hr, hdc] at hv
      | value w => simp [futureGet, hr, hdc]
      | error e' => simp [futureGet, hr, hdc] at hv

/-- Witness for C7: on a fresh channel the producer sets the error "fail";
the consumer's next retrieval re-raises exactly that error and a second
retrieval is not possible. -/
theorem claim7_one_shot_error_witness :
    (futureGet ⟨CellState.error "fail", false⟩).1 = GetOutcome.gotError "fail" ∧
    (futureGet (futureGet ⟨CellState.error "fail", false⟩).2).1 = GetOutcome.invalid := by
  obtain ⟨h1, h2, h3, h4⟩ :=
    claim7_one_shot_error "fail" newChannel ⟨CellState.error "fail", false⟩ rfl rfl
  exact ⟨h1, h2⟩

end Promise8
